import Mathlib

/-!
Verification of the turn-orchestration and long-term-memory subsystem of the
ravenUI repository (src/src/lib/server/user-settings.ts and
src/src/routes/api/chat/+server.ts), as a shallow embedding.

Modelling conventions:
- JavaScript numbers are modelled as exact rationals (`ℚ`); `Date.parse` and
  `Date.now()` are impure platform calls, so they enter the embedding as
  explicit arguments (`dateParse : String → Option ℚ`, with `none` standing
  for `NaN`, and `now : ℚ` in epoch milliseconds).
- JavaScript strings are Lean `String`s / `List Char`; `.slice`, `.length`
  etc. act on UTF-16 code units in JS and on code points here, which agree on
  the BMP inputs considered.
- A JS `Set` built by insertion is a Lean list deduplicated keeping first
  occurrences; only membership and iteration order are used by the source.
- `Array.prototype.sort` with comparator `(a, b) => b.score - a.score` is a
  stable descending sort (stability is mandated by the ECMAScript spec); it is
  embedded as a stable insertion sort by descending score.
- `async` store / provider calls are embedded by passing their results in
  explicitly; a call that can throw carries an `Except` result.
-/

namespace RavenUI

unseal Rat.add Rat.sub Rat.mul Rat.inv Rat.ofScientific in
/-- The JS regex class `\s` (also the set trimmed by `String.prototype.trim`):
whitespace and line terminators. -/
def isJsWs (c : Char) : Bool :=
  c = ' ' || c = '\t' || c = '\n' || c = '\r' ||
  c.toNat = 11 || c.toNat = 12 || c.toNat = 0xa0 || c.toNat = 0x1680 ||
  (0x2000 ≤ c.toNat && c.toNat ≤ 0x200a) ||
  c.toNat = 0x2028 || c.toNat = 0x2029 || c.toNat = 0x202f ||
  c.toNat = 0x205f || c.toNat = 0x3000 || c.toNat = 0xfeff

/-- `value.trim()` on a char list: drop leading and trailing whitespace. -/
def jsTrimList (l : List Char) : List Char :=
  ((l.dropWhile isJsWs).reverse.dropWhile isJsWs).reverse

/-- `value.trim()` on a string. -/
def jsTrim (value : String) : String :=
  String.mk (jsTrimList value.toList)

/-- `.replace(/\s+/g, ' ')`: each maximal whitespace run becomes one space.
The flag records whether the previous character was part of a whitespace run. -/
def collapseWsAux : Bool → List Char → List Char
  | _, [] => []
  | prevWs, c :: rest =>
    if isJsWs c then
      if prevWs then collapseWsAux true rest
      else ' ' :: collapseWsAux true rest
    else c :: collapseWsAux false rest

/-- user-settings.ts `normalizeText`: `value.trim().replace(/\s+/g, ' ')
.slice(0, maxLength)`.  (The source first checks `typeof value !== 'string'`;
here the value is typed as a string.) -/
def normalizeText (value : String) (maxLength : Nat) : String :=
  String.mk ((collapseWsAux false (jsTrimList value.toList)).take maxLength)

/-- `String.prototype.toLowerCase` restricted to ASCII (all inputs considered
are ASCII). -/
def jsToLower (c : Char) : Char :=
  if 'A' ≤ c && c ≤ 'Z' then Char.ofNat (c.toNat + 32) else c

/-- user-settings.ts `normalizeMemoryText`:
`value.trim().replace(/\s+/g, ' ').toLowerCase()`. -/
def normalizeMemoryText (value : String) : String :=
  String.mk ((collapseWsAux false (jsTrimList value.toList)).map jsToLower)

/-- Keep `[a-z0-9]` characters (the complement, minus whitespace, is replaced
by a space in `tokenize`). -/
def isTokenChar (c : Char) : Bool :=
  ('a' ≤ c && c ≤ 'z') || ('0' ≤ c && c ≤ '9')

/-- `.split(/\s+/)` with empty pieces already discarded (the only empty piece a
JS split can produce is at the ends, and it is removed by the length filter in
`tokenize` anyway).  `cur` is the current word accumulated in reverse. -/
def splitWordsAux : List Char → List Char → List String
  | cur, [] => if cur.isEmpty then [] else [String.mk cur.reverse]
  | cur, c :: rest =>
    if isJsWs c then
      if cur.isEmpty then splitWordsAux [] rest
      else String.mk cur.reverse :: splitWordsAux [] rest
    else splitWordsAux (c :: cur) rest

/-- `new Set(words)`: deduplicate keeping the first occurrence of each word,
preserving insertion order. -/
def dedupFirst (seen : List String) : List String → List String
  | [] => []
  | x :: rest =>
    if seen.contains x then dedupFirst seen rest
    else x :: dedupFirst (x :: seen) rest

/-- user-settings.ts `tokenize`: lowercase, replace `[^a-z0-9\s]` by a space,
split on whitespace, keep tokens of length ≥ 3, collect into a set. -/
def tokenize (value : String) : List String :=
  let cleaned := value.toList.map (fun c =>
    let lc := jsToLower c
    if isTokenChar lc || isJsWs lc then lc else ' ')
  dedupFirst [] ((splitWordsAux [] cleaned).filter (fun t => 3 ≤ t.length))

inductive MemoryKind where
  | preference
  | profile
  | project
  | other
deriving DecidableEq, Repr

inductive MemorySource where
  | manual
  | auto
deriving DecidableEq, Repr

structure UserMemoryRecord where
  id : Int
  userId : String
  content : String
  kind : MemoryKind
  source : MemorySource
  confidence : ℚ
  createdAt : String
  updatedAt : String
  lastUsedAt : Option String
deriving DecidableEq, Repr

structure UserSettingsRecord where
  userId : String
  personalizationGuidance : String
  memoryEnabled : Bool
  autoMemoryEnabled : Bool
  updatedAt : String
deriving DecidableEq, Repr

structure AutoMemoryCandidate where
  content : String
  kind : MemoryKind
  confidence : ℚ
deriving DecidableEq, Repr

def MAX_PERSONALIZATION_LENGTH : Nat := 1200
def MAX_MEMORY_LENGTH : Nat := 280
def MAX_AUTO_INSERT_PER_TURN : Nat := 3
def MIN_AUTO_MEMORY_CONFIDENCE : ℚ := 0.78

/-- user-settings.ts `scoreMemoryAgainstPrompt`: 0 on an empty prompt token
set, else the number of (distinct) memory tokens present in the prompt token
set. -/
def scoreMemoryAgainstPrompt (memory : UserMemoryRecord) (promptTokens : List String) : Nat :=
  if promptTokens.length = 0 then 0
  else ((tokenize memory.content).filter (fun t => promptTokens.contains t)).length

/-- One element of the `scored` intermediate array of
`selectRelevantMemories`. -/
structure ScoredMemory where
  memory : UserMemoryRecord
  overlap : Nat
  score : ℚ
deriving DecidableEq, Repr

/-- The body of the `memories.map(...)` in `selectRelevantMemories`: overlap,
age-based recency bonus (missing/unparsable `updatedAt` counts as 30 days
old), manual-source bonus, confidence bonus. -/
def scoreEntry (dateParse : String → Option ℚ) (now : ℚ) (promptTokens : List String)
    (memory : UserMemoryRecord) : ScoredMemory :=
  let overlap := scoreMemoryAgainstPrompt memory promptTokens
  let ageDays : ℚ :=
    match dateParse memory.updatedAt with
    | some updatedAtEpoch => max ((now - updatedAtEpoch) / (1000 * 60 * 60 * 24)) 0
    | none => 30
  let recencyBonus : ℚ := max 0 (1.5 - ageDays / 20)
  let manualBonus : ℚ := if memory.source = MemorySource.manual then 0.3 else 0
  let confidenceBonus : ℚ := memory.confidence * 0.7
  { memory := memory, overlap := overlap,
    score := (overlap : ℚ) * 2 + recencyBonus + manualBonus + confidenceBonus }

/-- Insert into a list sorted by descending score, after every element of
strictly greater or equal score (so that the sort below is stable). -/
def insertScoredDesc (x : ScoredMemory) : List ScoredMemory → List ScoredMemory
  | [] => [x]
  | y :: rest => if x.score < y.score then y :: insertScoredDesc x rest else x :: y :: rest

/-- Stable insertion sort by descending score: the embedding of
`.sort((a, b) => b.score - a.score)` (a stable sort per the ECMAScript spec). -/
def sortScoredDesc : List ScoredMemory → List ScoredMemory
  | [] => []
  | x :: rest => insertScoredDesc x (sortScoredDesc rest)

/-- The scored-and-filtered intermediate of `selectRelevantMemories` before
the sort: score every memory in input order, then keep only positive-overlap
entries when at least one exists (the two-tier filter). -/
def keptScored (dateParse : String → Option ℚ) (now : ℚ)
    (memories : List UserMemoryRecord) (latestPrompt : String) : List ScoredMemory :=
  let promptTokens := tokenize latestPrompt
  let scored := memories.map (scoreEntry dateParse now promptTokens)
  let hasOverlap := scored.any (fun item => decide (0 < item.overlap))
  scored.filter (fun item => if hasOverlap then decide (0 < item.overlap) else true)

/-- The `sorted` intermediate of `selectRelevantMemories` before `.slice` and
`.map`: the kept entries, stably sorted by descending score. -/
def selectSorted (dateParse : String → Option ℚ) (now : ℚ)
    (memories : List UserMemoryRecord) (latestPrompt : String) : List ScoredMemory :=
  sortScoredDesc (keptScored dateParse now memories latestPrompt)

/-- user-settings.ts `selectRelevantMemories` (the callers pass `limit = 8`).
`Date.now()` and `Date.parse` are explicit arguments, see the header. -/
def selectRelevantMemories (dateParse : String → Option ℚ) (now : ℚ)
    (memories : List UserMemoryRecord) (latestPrompt : String) (limit : Int) :
    List UserMemoryRecord :=
  if memories.length = 0 ∨ limit ≤ 0 then []
  else ((selectSorted dateParse now memories latestPrompt).take limit.toNat).map
    (fun item => item.memory)

/-- user-settings.ts `normalizeCandidate`: normalize the content (empty →
reject), clamp the confidence to `[0,1]` (`Number.isFinite` always holds for a
rational), reject below the 0.78 gate.  (`normalizeMemoryKind` is the identity
on the typed `MemoryKind` enum.) -/
def normalizeCandidate (candidate : AutoMemoryCandidate) : Option AutoMemoryCandidate :=
  let content := normalizeText candidate.content MAX_MEMORY_LENGTH
  if content = "" then none
  else
    let confidence := min (max candidate.confidence 0) 1
    if confidence < MIN_AUTO_MEMORY_CONFIDENCE then none
    else some { content := content, kind := candidate.kind, confidence := confidence }

/-- The candidate loop of `mergeAutoMemories`.  `fuel` is the remaining insert
budget (the source pushes, then breaks once `deduped.length` reaches
`MAX_AUTO_INSERT_PER_TURN`); `seenKeys` is the dedup set. -/
def mergeLoop : Nat → List String → List AutoMemoryCandidate → List AutoMemoryCandidate
  | _, _, [] => []
  | 0, _, _ :: _ => []
  | fuel + 1, seenKeys, candidate :: rest =>
    match normalizeCandidate candidate with
    | none => mergeLoop (fuel + 1) seenKeys rest
    | some normalized =>
      let key := normalizeMemoryText normalized.content
      if key = "" || seenKeys.contains key then mergeLoop (fuel + 1) seenKeys rest
      else normalized :: mergeLoop fuel (key :: seenKeys) rest

/-- user-settings.ts `mergeAutoMemories`, as the list of survivors it passes to
`createUserMemory` (each is persisted with `source: 'auto'` and its own
confidence), in persisting order.  The dedup set is seeded with the normalized
content of every existing active memory. -/
def mergeAutoMemories (candidates : List AutoMemoryCandidate)
    (existingMemories : List UserMemoryRecord) : List AutoMemoryCandidate :=
  mergeLoop MAX_AUTO_INSERT_PER_TURN
    (existingMemories.map (fun m => normalizeMemoryText m.content)) candidates

/-- JSON values, the shape of a successful `JSON.parse`. -/
inductive Js where
  | null
  | bool (b : Bool)
  | num (q : ℚ)
  | str (s : String)
  | arr (elems : List Js)
  | obj (fields : List (String × Js))

/-- chat/+server.ts line 141, `parsed && typeof parsed === 'object'`: `null`
is of type `'object'` but falsy; arrays pass the test. -/
def isObjectLike : Js → Bool
  | .obj _ => true
  | .arr _ => true
  | _ => false

/-- Strip `pat` from the head of a list, or fail. -/
def stripPat : List Char → List Char → Option (List Char)
  | [], rest => some rest
  | _ :: _, [] => none
  | p :: ps, c :: cs => if c = p then stripPat ps cs else none

/-- Split around the first occurrence of `pat`: `(before, after it)`. -/
def findPatSplit (pat : List Char) : List Char → Option (List Char × List Char)
  | [] =>
    match stripPat pat [] with
    | some rest => some ([], rest)
    | none => none
  | c :: cs =>
    match stripPat pat (c :: cs) with
    | some rest => some ([], rest)
    | none => (findPatSplit pat cs).map (fun pr => (c :: pr.1, pr.2))

/-- `hay.includes(pat)`. -/
def containsPat (hay pat : String) : Bool :=
  (findPatSplit pat.toList hay.toList).isSome

/-- user-settings.ts `isMemorySchemaMissingError`, with the thrown error
modelled by its message string (`String(error)` for non-`Error` values). -/
def isMemorySchemaMissingError (message : String) : Bool :=
  let m := String.mk (message.toList.map jsToLower)
  (containsPat m "chat_user_settings" || containsPat m "chat_user_memories") &&
    containsPat m "does not exist"

/-- The optional case-insensitive `(?:json)?` tag after the opening fence. -/
def stripJsonTag : List Char → Option (List Char)
  | c1 :: c2 :: c3 :: c4 :: rest =>
    if jsToLower c1 = 'j' ∧ jsToLower c2 = 's' ∧ jsToLower c3 = 'o' ∧ jsToLower c4 = 'n'
    then some rest else none
  | _ => none

/-- The capture of `/(?:...)``(?:json)?\s*([\s\S]*?)``.../i` (triple-backtick
fences): after the first fence and the optional tag, greedy `\s*` eats the
leading whitespace and the lazy capture runs to the next fence.  When the
tagged reading finds no closing fence the regex backtracks to the untagged
one (the extra searched text contains no backtick, so this changes nothing;
it is kept for fidelity to the backtracking semantics). -/
def fencedInner (l : List Char) : Option (List Char) :=
  match findPatSplit ['`', '`', '`'] l with
  | none => none
  | some (_, afterOpen) =>
    let attempt : List Char → Option (List Char) := fun start =>
      (findPatSplit ['`', '`', '`'] (start.dropWhile isJsWs)).map (fun pr => pr.1)
    match stripJsonTag afterOpen with
    | some afterTag =>
      match attempt afterTag with
      | some inner => some inner
      | none => attempt afterOpen
    | none => attempt afterOpen

/-- `trimmed.slice(trimmed.indexOf('{'), trimmed.lastIndexOf('}') + 1)` when
the first `{` exists and the last `}` lies strictly after it. -/
def braceSlice (l : List Char) : Option (List Char) :=
  let fromBrace := l.dropWhile (fun c => c ≠ '{')
  match fromBrace with
  | [] => none
  | _ :: _ =>
    let upToClose := (fromBrace.reverse.dropWhile (fun c => c ≠ '}')).reverse
    match upToClose with
    | [] => none
    | _ :: _ => some upToClose

/-- The ordered candidate substrings built by `parseJsonObjectFromText`: the
trimmed text if non-empty, the trimmed fenced interior if the fence matched
with a truthy (non-empty) capture, and the first-`{`-to-last-`}` slice if
present. -/
def jsonCandidateTexts (text : String) : List String :=
  let trimmed := jsTrimList text.toList
  (if trimmed.isEmpty then [] else [String.mk trimmed]) ++
  (match fencedInner trimmed with
   | some inner => if inner.isEmpty then [] else [String.mk (jsTrimList inner)]
   | none => []) ++
  (match braceSlice trimmed with
   | some s => [String.mk s]
   | none => [])

/-- chat/+server.ts `parseJsonObjectFromText`, with `JSON.parse` supplied as
`jsonParse` (`none` models a parse error being thrown): the first candidate
that parses to a truthy `'object'` value wins. -/
def parseJsonObjectFromText (jsonParse : String → Option Js) (text : String) : Option Js :=
  (jsonCandidateTexts text).findSome? (fun candidate =>
    match jsonParse candidate with
    | some parsed => if isObjectLike parsed then some parsed else none
    | none => none)

/-- Field access on a parsed JSON object; `JSON.parse` keeps the last of
duplicate keys. -/
def jsGetField (fields : List (String × Js)) (key : String) : Option Js :=
  (fields.reverse.find? (fun f => f.1 = key)).map (fun f => f.2)

/-- chat/+server.ts `normalizeKind` applied to the raw `kind` field: the four
enum strings map to themselves, everything else (including a missing or
non-string field) to `other`. -/
def normalizeKind : Option Js → MemoryKind
  | some (.str "preference") => .preference
  | some (.str "profile") => .profile
  | some (.str "project") => .project
  | some (.str "other") => .other
  | _ => .other

/-- A simple decimal for the `Number(string)` coercion: optional sign, digits,
optional fraction. -/
def decimalDigits : List Char → Option Nat
  | [] => some 0
  | c :: cs =>
    if '0' ≤ c ∧ c ≤ '9' then
      (decimalDigits cs).map (fun n => (c.toNat - '0'.toNat) * 10 ^ cs.length + n)
    else none

/-- `Number(s)` for a string: trimmed-empty gives 0; a plain decimal literal
(optionally signed, with digits on at least one side of the point) parses;
other forms (exponents, hex, etc., which occur in no input considered here)
give NaN. -/
def parseDecimal? (s : String) : Option ℚ :=
  let t := jsTrimList s.toList
  if t.isEmpty then some 0
  else
    let (sign, digits) : ℚ × List Char :=
      match t with
      | '-' :: rest => (-1, rest)
      | '+' :: rest => (1, rest)
      | _ => (1, t)
    match findPatSplit ['.'] digits with
    | none =>
      if digits.isEmpty then none
      else (decimalDigits digits).map (fun n => sign * n)
    | some (intPart, fracPart) =>
      if intPart.isEmpty ∧ fracPart.isEmpty then none
      else
        match decimalDigits intPart, decimalDigits fracPart with
        | some i, some f => some (sign * ((i : ℚ) + (f : ℚ) / 10 ^ fracPart.length))
        | _, _ => none

/-- The `Number(v ?? 0)` coercion on a present JSON value (`none` models NaN).
Array and object coercion (via `toString`) is modelled as NaN; neither occurs
in any input considered here. -/
def jsToNumber : Js → Option ℚ
  | .num q => some q
  | .null => some 0
  | .bool b => some (if b then 1 else 0)
  | .str s => parseDecimal? s
  | .arr _ => none
  | .obj _ => none

def MAX_EXTRACTED_MEMORIES : Nat := 6
def MAX_EXTRACTED_CONTENT_LENGTH : Nat := 280

/-- The body of the `saveList.map(...)` in `parseAutoMemoryCandidates`:
`!entry || typeof entry !== 'object'` rejects everything except objects and
arrays, and an array has no `content` / `kind` / `confidence` properties, so
it falls to the empty-content rejection. -/
def entryToCandidate : Js → Option AutoMemoryCandidate
  | .obj fields =>
    let rawContent := match jsGetField fields "content" with
      | some (.str s) => s
      | _ => ""
    let content := normalizeText rawContent MAX_EXTRACTED_CONTENT_LENGTH
    if content = "" then none
    else
      let rawConfidence : Option ℚ := match jsGetField fields "confidence" with
        | some (.num q) => some q
        | some v => jsToNumber v
        | none => some 0
      let confidence : ℚ := match rawConfidence with
        | some q => min (max q 0) 1
        | none => 0
      some { content := content, kind := normalizeKind (jsGetField fields "kind"),
             confidence := confidence }
  | _ => none

/-- chat/+server.ts `parseAutoMemoryCandidates`: a null payload or a payload
whose `save` is not an array gives the empty list; otherwise map the entries,
drop the rejected ones and truncate to 6. -/
def parseAutoMemoryCandidates : Option Js → List AutoMemoryCandidate
  | none => []
  | some (.obj fields) =>
    match jsGetField fields "save" with
    | some (.arr saveList) => (saveList.filterMap entryToCandidate).take MAX_EXTRACTED_MEMORIES
    | _ => []
  | some _ => []

def allowedProviders : List String := ["koboldcpp", "openrouter"]

def MAX_MEMORY_PROMPT_ENTRIES : Int := 8

/-- The literal alternatives of the capture-gate regex in
`shouldAttemptAutoMemoryCapture` (every branch of the alternation is a literal
phrase, so the regex test is a disjunction of substring tests). -/
def capturePhrases : List String :=
  ["i prefer", "i like", "i love", "i hate", "i am", "i work", "i use", "i want",
   "my name", "my timezone", "my project", "my role", "my company", "my goal",
   "call me", "remember that", "i usually", "i always", "i never"]

/-- chat/+server.ts `shouldAttemptAutoMemoryCapture`: trimmed lowercased
message of length ≥ 14 that contains one of the durable-preference phrases. -/
def shouldAttemptAutoMemoryCapture (userMessage : String) : Bool :=
  let normalized := String.mk ((jsTrimList userMessage.toList).map jsToLower)
  if normalized.length < 14 then false
  else capturePhrases.any (fun p => containsPat normalized p)

/-- chat/+server.ts `formatUserMessageForModel`. -/
def formatUserMessageForModel (content : String) (attachments : List String) : String :=
  if attachments.length = 0 then content
  else content ++ "\n\nAttached files (names only): " ++ String.intercalate ", " attachments

/-- A persisted thread message as returned by `listMessagesForThread`. -/
structure StoredMessage where
  role : String
  content : String
  attachments : List String
deriving DecidableEq, Repr

/-- chat/+server.ts `toModelMessages`: the last 20 persisted messages, user
messages with attachments rendered with inline filename references. -/
def toModelMessages (history : List StoredMessage) : List (String × String) :=
  let slice := history.drop (history.length - 20)
  slice.map (fun m =>
    if m.role = "user" ∧ 0 < m.attachments.length then
      ("user", formatUserMessageForModel m.content m.attachments)
    else (m.role, m.content))

/-- chat/+server.ts `buildSettingsSystemPrompt`. -/
def buildSettingsSystemPrompt (personalizationGuidance : String)
    (memoryEntries : List String) : Option String :=
  let normalizedGuidance := jsTrim personalizationGuidance
  let sections : List String :=
    (if normalizedGuidance ≠ "" then
      ["Personalization guidance from the user:\n" ++ normalizedGuidance]
     else []) ++
    (if 0 < memoryEntries.length then
      ["Saved memory about the user:\n" ++
        String.intercalate "\n" (memoryEntries.map (fun entry => "- " ++ entry))]
     else [])
  if sections.length = 0 then none
  else some (String.intercalate "\n\n"
    ("Apply these user-specific settings when answering. Follow them unless they conflict with safety rules or the user explicitly overrides them in this chat." :: sections))

/-- chat/+server.ts `normalizeAttachments` (the entries are typed as strings
here; the source first drops non-string entries). -/
def normalizeAttachments (value : List String) : List String :=
  (value.map jsTrim).filter (fun s => s ≠ "")

/-- user-settings.ts `defaultUserSettings`; `toIsoNow()` is passed in as
`nowIso`. -/
def defaultUserSettings (userId : String) (nowIso : String) : UserSettingsRecord :=
  { userId := userId, personalizationGuidance := "", memoryEnabled := true,
    autoMemoryEnabled := true, updatedAt := nowIso }

structure QuotaResult where
  allowed : Bool
  role : String
  used : Int
  limit : Int
  remaining : Int
deriving DecidableEq, Repr

/-- The POST request body after `request.json()` (fields may be absent). -/
structure ChatRequestBody where
  message : Option String
  provider : Option String
  attachments : List String
  threadId : Option String
  reasoningEnabled : Option Bool
deriving DecidableEq, Repr

/-- One primary-completion call as issued by the handler. -/
structure CompletionRequest where
  messages : List (String × String)
  provider : Option String
  reasoningEnabled : Bool
deriving DecidableEq, Repr

/-- One `addMessageToThread` call: thread id, role, content, attachments. -/
structure AppendedMessage where
  threadId : String
  role : String
  content : String
  attachments : List String
deriving DecidableEq, Repr

/-- Every mutation or outbound call the handler performs during the
synchronous part of a turn; background work is recorded as dispatched. -/
structure Effects where
  threadsCreated : List String
  messagesAppended : List AppendedMessage
  completionRequests : List CompletionRequest
  threadsTouched : List String
  touchMemoriesDispatched : Bool
  extractionDispatched : Bool
deriving DecidableEq, Repr

def noEffects : Effects :=
  { threadsCreated := [], messagesAppended := [], completionRequests := [],
    threadsTouched := [], touchMemoriesDispatched := false, extractionDispatched := false }

/-- The results of every external call the handler can make, supplied to the
embedding (`Except.error` models a rejection/throw, carrying the error
message): see the header comment.  The store writes (thread creation, message
appends, thread touch) are modelled as succeeding — their results feed no
branch of the handler, and no claim concerns their failure paths. -/
structure ChatEnv where
  bearer : Option String
  authUser : Except String (Option String)
  body : Option ChatRequestBody
  isAdmin : Bool
  quota : Except String QuotaResult
  threadLookup : Option String
  createdThreadId : String
  history : List StoredMessage
  settingsResult : Except String UserSettingsRecord
  memoriesResult : Except String (List UserMemoryRecord)
  completion : Except String (String × String)
  nowIso : String
  now : ℚ
  dateParse : String → Option ℚ

/-- The handler's observable outcome: the HTTP response, the settings and
memories that shaped the prompt, and the effect trace. -/
structure TurnOut where
  status : Nat
  errorMsg : Option String
  reply : Option String
  provider : Option String
  threadId : Option String
  quotaOut : Option QuotaResult
  settingsUsed : Option UserSettingsRecord
  selectedMemories : List UserMemoryRecord
  systemPromptUsed : Option String
  effects : Effects
deriving DecidableEq, Repr

/-- An error response issued before any mutation. -/
def errOut (status : Nat) (msg : String) : TurnOut :=
  { status := status, errorMsg := some msg, reply := none, provider := none,
    threadId := none, quotaOut := none, settingsUsed := none, selectedMemories := [],
    systemPromptUsed := none, effects := noEffects }

/-- chat/+server.ts `POST`, with every external call's result supplied by
`env` and the mutations recorded in `TurnOut.effects`.  The two
fire-and-forget continuations (`touchMemories`, extraction + merge) are
recorded as dispatched, not executed, matching their detachment from the
response. -/
def runTurn (env : ChatEnv) : TurnOut :=
  match env.bearer with
  | none => errOut 401 "Unauthorized. Missing bearer token."
  | some _ =>
  match env.authUser with
  | .error e => errOut 500 e
  | .ok none => errOut 401 "Unauthorized. Invalid or expired session."
  | .ok (some userId) =>
  match env.body with
  | none => errOut 400 "Invalid JSON payload."
  | some body =>
  let message := jsTrim (body.message.getD "")
  if message = "" then errOut 400 "Message is required."
  else
    let attachments := normalizeAttachments body.attachments
    let reasoningEnabled := body.reasoningEnabled = some true
    let requestedProvider : Option String :=
      match body.provider with
      | some p => if env.isAdmin ∧ allowedProviders.contains p then some p else none
      | none => none
    match env.quota with
    | .error e => errOut 500 e
    | .ok quota =>
    if quota.allowed = false then
      { errOut 429 "You're cut off! Go outside. Touch some grass." with
        quotaOut := some quota }
    else
      let lookedUpThread : Option String :=
        match body.threadId with
        | some tid => if jsTrim tid ≠ "" then env.threadLookup else none
        | none => none
      let thread := lookedUpThread.getD env.createdThreadId
      let threadsCreated : List String :=
        match lookedUpThread with
        | some _ => []
        | none => [env.createdThreadId]
      let modelMessages := toModelMessages env.history
      -- The settings/memories block: `userSettings` starts at the defaults; a
      -- throw from the settings fetch leaves it there (the catch re-defaults
      -- only on non-schema-missing errors, which there changes nothing); a
      -- throw from the memories fetch keeps the already-fetched settings
      -- exactly when the error is the schema-missing one.
      let settingsBlock : Bool × UserSettingsRecord × List UserMemoryRecord :=
        match env.settingsResult with
        | .ok fetched =>
          if fetched.memoryEnabled then
            match env.memoriesResult with
            | .ok mems => (true, fetched, mems)
            | .error e =>
              (false,
               if isMemorySchemaMissingError e then fetched
               else defaultUserSettings userId env.nowIso, [])
          else (true, fetched, [])
        | .error _ => (false, defaultUserSettings userId env.nowIso, [])
      let memoryStorageAvailable := settingsBlock.1
      let userSettings := settingsBlock.2.1
      let userMemories := settingsBlock.2.2
      let relevantMemories :=
        if userSettings.memoryEnabled && memoryStorageAvailable then
          selectRelevantMemories env.dateParse env.now userMemories message
            MAX_MEMORY_PROMPT_ENTRIES
        else []
      let settingsSystemPrompt := buildSettingsSystemPrompt
        userSettings.personalizationGuidance (relevantMemories.map (fun m => m.content))
      let messagesForModel : List (String × String) :=
        match settingsSystemPrompt with
        | some p => ("system", p) :: modelMessages
        | none => modelMessages
      let request : CompletionRequest :=
        { messages := messagesForModel, provider := requestedProvider,
          reasoningEnabled := reasoningEnabled }
      match env.completion with
      | .error e =>
        { errOut 500 e with
          effects := { noEffects with
            threadsCreated := threadsCreated,
            messagesAppended := [⟨thread, "user", message, attachments⟩],
            completionRequests := [request] } }
      | .ok (reply, providerUsed) =>
        { status := 200, errorMsg := none, reply := some reply,
          provider := some providerUsed, threadId := some thread,
          quotaOut := some quota, settingsUsed := some userSettings,
          selectedMemories := relevantMemories, systemPromptUsed := settingsSystemPrompt,
          effects :=
            { threadsCreated := threadsCreated,
              messagesAppended :=
                [⟨thread, "user", message, attachments⟩,
                 ⟨thread, "assistant", reply, []⟩],
              completionRequests := [request],
              threadsTouched := [thread],
              touchMemoriesDispatched :=
                memoryStorageAvailable && userSettings.memoryEnabled &&
                  decide (0 < relevantMemories.length),
              extractionDispatched :=
                memoryStorageAvailable && userSettings.memoryEnabled &&
                  userSettings.autoMemoryEnabled &&
                  shouldAttemptAutoMemoryCapture message } }

/-- A JSON text wrapped in a fenced code block with the `json` tag. -/
def fenceJson (s : String) : String := "```json\n" ++ s ++ "\n```"

/-! ### Sample values for concrete instantiations -/

/-- A sample `Date.parse`: knows only the epoch timestamp string. -/
def dateParseSample : String → Option ℚ :=
  fun s => if s = "1970-01-01T00:00:00.000Z" then some 0 else none

/-- An auto memory whose recency bonus decays with the clock. -/
def memAlpha : UserMemoryRecord :=
  { id := 1, userId := "u", content := "alpha fact", kind := .other, source := .auto,
    confidence := 0, createdAt := "c", updatedAt := "1970-01-01T00:00:00.000Z",
    lastUsedAt := none }

/-- A manual memory with an unparsable timestamp: its score is clock-independent. -/
def memBeta : UserMemoryRecord :=
  { id := 2, userId := "u", content := "beta fact", kind := .other, source := .manual,
    confidence := 0, createdAt := "c", updatedAt := "not-a-date", lastUsedAt := none }

/-- A memory whose tokens do not meet the prompts used against it. -/
def memGamma : UserMemoryRecord :=
  { id := 3, userId := "u", content := "likes python", kind := .preference, source := .manual,
    confidence := 1, createdAt := "c", updatedAt := "not-a-date", lastUsedAt := none }

/-- A request body with a plain short message. -/
def bodyHello : ChatRequestBody :=
  { message := some "hello world", provider := none, attachments := [],
    threadId := none, reasoningEnabled := none }

/-- An exhausted quota result. -/
def quotaDenied : QuotaResult :=
  { allowed := false, role := "base", used := 50, limit := 50, remaining := 0 }

/-- A quota result with budget left. -/
def quotaOk : QuotaResult :=
  { allowed := true, role := "base", used := 1, limit := 50, remaining := 49 }

/-- Settings as fetched from the store, with non-default guidance. -/
def fetchedSettings : UserSettingsRecord :=
  { userId := "user-1", personalizationGuidance := "be brief", memoryEnabled := true,
    autoMemoryEnabled := true, updatedAt := "2024-01-01" }

/-- An environment where the settings fetch succeeds but the memories read
throws the schema-missing error. -/
def envMemoriesSchemaMissing : ChatEnv :=
  { bearer := some "tok", authUser := .ok (some "user-1"), body := some bodyHello,
    isAdmin := false, quota := .ok quotaOk, threadLookup := none, createdThreadId := "t1",
    history := [], settingsResult := .ok fetchedSettings,
    memoriesResult := .error "relation \"chat_user_memories\" does not exist",
    completion := .ok ("fine", "koboldcpp"), nowIso := "2026-01-01T00:00:00.000Z",
    now := 0, dateParse := fun _ => none }

/-- A `JSON.parse` oracle that accepts exactly one object text. -/
def jsonParseSample : String → Option Js :=
  fun s => if s = "\x7b\"save\":[]\x7d" then some (Js.obj [("save", Js.arr [])]) else none

/-! ### Properties of the stable descending sort -/

theorem insertScoredDesc_perm (x : ScoredMemory) (l : List ScoredMemory) :
    List.Perm (insertScoredDesc x l) (x :: l) := by
  induction l with
  | nil => exact List.Perm.refl _
  | cons y rest ih =>
    by_cases h : x.score < y.score
    · rw [insertScoredDesc, if_pos h]
      exact (ih.cons y).trans (List.Perm.swap x y rest)
    · rw [insertScoredDesc, if_neg h]

theorem sortScoredDesc_perm (l : List ScoredMemory) : List.Perm (sortScoredDesc l) l := by
  induction l with
  | nil => exact List.Perm.refl _
  | cons x rest ih =>
    rw [sortScoredDesc]
    exact (insertScoredDesc_perm x (sortScoredDesc rest)).trans (ih.cons x)

theorem pairwise_insertScoredDesc {x : ScoredMemory} {l : List ScoredMemory}
    (hl : l.Pairwise (fun a b => b.score ≤ a.score)) :
    (insertScoredDesc x l).Pairwise (fun a b => b.score ≤ a.score) := by
  induction l with
  | nil => simp [insertScoredDesc]
  | cons y rest ih =>
    rcases List.pairwise_cons.mp hl with ⟨hy, hrest⟩
    by_cases h : x.score < y.score
    · rw [insertScoredDesc, if_pos h]
      refine List.pairwise_cons.mpr ⟨?_, ih hrest⟩
      intro z hz
      rcases List.mem_cons.mp ((insertScoredDesc_perm x rest).mem_iff.mp hz) with rfl | hzr
      · exact le_of_lt h
      · exact hy z hzr
    · rw [insertScoredDesc, if_neg h]
      refine List.pairwise_cons.mpr ⟨?_, hl⟩
      intro z hz
      rcases List.mem_cons.mp hz with rfl | hzr
      · exact le_of_not_lt h
      · exact le_trans (hy z hzr) (le_of_not_lt h)

theorem sortScoredDesc_pairwise (l : List ScoredMemory) :
    (sortScoredDesc l).Pairwise (fun a b => b.score ≤ a.score) := by
  induction l with
  | nil => simp [sortScoredDesc]
  | cons x rest ih =>
    rw [sortScoredDesc]
    exact pairwise_insertScoredDesc ih

theorem filter_insertScoredDesc (x : ScoredMemory) (l : List ScoredMemory) (s : ℚ) :
    (insertScoredDesc x l).filter (fun a => decide (a.score = s)) =
      if x.score = s then x :: l.filter (fun a => decide (a.score = s))
      else l.filter (fun a => decide (a.score = s)) := by
  induction l with
  | nil =>
    by_cases h : x.score = s <;>
      simp [insertScoredDesc, List.filter_cons, h]
  | cons y rest ih =>
    by_cases h : x.score < y.score
    · rw [insertScoredDesc, if_pos h]
      by_cases hx : x.score = s
      · have hy : ¬ y.score = s := by
          intro hy
          exact absurd (hx.trans hy.symm) (ne_of_lt h)
        simp [List.filter_cons, hx, hy, ih]
      · by_cases hy : y.score = s <;>
          simp [List.filter_cons, hx, hy, ih]
    · rw [insertScoredDesc, if_neg h]
      by_cases hx : x.score = s <;>
        simp [List.filter_cons, hx]

theorem filter_sortScoredDesc (l : List ScoredMemory) (s : ℚ) :
    (sortScoredDesc l).filter (fun a => decide (a.score = s)) =
      l.filter (fun a => decide (a.score = s)) := by
  induction l with
  | nil => rfl
  | cons x rest ih =>
    rw [sortScoredDesc, filter_insertScoredDesc]
    by_cases hx : x.score = s <;>
      simp [List.filter_cons, hx, ih]

/-! ### Properties of the merger -/

theorem normalizeCandidate_confidence {c n : AutoMemoryCandidate}
    (h : normalizeCandidate c = some n) : MIN_AUTO_MEMORY_CONFIDENCE ≤ n.confidence := by
  by_cases hc : normalizeText c.content MAX_MEMORY_LENGTH = ""
  · simp [normalizeCandidate, hc] at h
  · by_cases hlt : min (max c.confidence 0) 1 < MIN_AUTO_MEMORY_CONFIDENCE
    · simp [normalizeCandidate, hc, hlt] at h
    · simp [normalizeCandidate, hc, hlt] at h
      rw [← h]
      exact le_of_not_lt hlt

/-- The full loop invariant of the merger: every surviving candidate has a
dedup key outside the seen set, a non-empty key and a gated confidence; the
survivors' keys are pairwise distinct; at most `fuel` survive; and survivors
are (normalized) input candidates in input order. -/
theorem mergeLoop_invariant (cands : List AutoMemoryCandidate) :
    ∀ (fuel : Nat) (seen : List String),
      (∀ c ∈ mergeLoop fuel seen cands,
         normalizeMemoryText c.content ∉ seen ∧ normalizeMemoryText c.content ≠ "" ∧
         MIN_AUTO_MEMORY_CONFIDENCE ≤ c.confidence) ∧
      ((mergeLoop fuel seen cands).map (fun c => normalizeMemoryText c.content)).Nodup ∧
      (mergeLoop fuel seen cands).length ≤ fuel ∧
      List.Sublist (mergeLoop fuel seen cands) (cands.filterMap normalizeCandidate) := by
  induction cands with
  | nil =>
    intro fuel seen
    match fuel with
    | 0 => simp [mergeLoop]
    | fuel + 1 => simp [mergeLoop]
  | cons c rest ih =>
    intro fuel seen
    match fuel with
    | 0 => simp [mergeLoop]
    | fuel + 1 =>
      cases hnc : normalizeCandidate c with
      | none =>
        have heq : mergeLoop (fuel + 1) seen (c :: rest) = mergeLoop (fuel + 1) seen rest := by
          rw [mergeLoop, hnc]
        rw [heq, List.filterMap_cons_none hnc]
        exact ih (fuel + 1) seen
      | some n =>
        cases hcond : (decide (normalizeMemoryText n.content = "") ||
            seen.contains (normalizeMemoryText n.content)) with
        | true =>
          have heq : mergeLoop (fuel + 1) seen (c :: rest) = mergeLoop (fuel + 1) seen rest := by
            simp only [mergeLoop, hnc]
            rw [if_pos hcond]
          rw [heq]
          have hsub := (ih (fuel + 1) seen).2.2.2
          refine ⟨(ih (fuel + 1) seen).1, (ih (fuel + 1) seen).2.1, (ih (fuel + 1) seen).2.2.1, ?_⟩
          rw [List.filterMap_cons_some hnc]
          exact List.Sublist.cons n hsub
        | false =>
          have hkey : normalizeMemoryText n.content ≠ "" ∧
              normalizeMemoryText n.content ∉ seen := by
            simpa using hcond
          have heq : mergeLoop (fuel + 1) seen (c :: rest) =
              n :: mergeLoop fuel (normalizeMemoryText n.content :: seen) rest := by
            simp only [mergeLoop, hnc]
            rw [if_neg (by simpa using hcond)]
          rw [heq]
          obtain ⟨ih1, ih2, ih3, ih4⟩ := ih fuel (normalizeMemoryText n.content :: seen)
          refine ⟨?_, ?_, ?_, ?_⟩
          · intro d hd
            rcases List.mem_cons.mp hd with rfl | hdr
            · exact ⟨hkey.2, hkey.1, normalizeCandidate_confidence hnc⟩
            · obtain ⟨hnot, hne, hconf⟩ := ih1 d hdr
              exact ⟨fun hs => hnot (List.mem_cons_of_mem _ hs), hne, hconf⟩
          · rw [List.map_cons, List.nodup_cons]
            refine ⟨?_, ih2⟩
            intro hmem
            rcases List.mem_map.mp hmem with ⟨d, hd, hdk⟩
            exact (ih1 d hd).1 (hdk ▸ List.mem_cons_self _ _)
          · simpa using Nat.succ_le_succ ih3
          · rw [List.filterMap_cons_some hnc]
            exact ih4.cons₂ n

/-! ### Properties of the selector -/

theorem scoreEntry_memory (dp : String → Option ℚ) (now : ℚ) (pt : List String)
    (m : UserMemoryRecord) : (scoreEntry dp now pt m).memory = m := rfl

theorem scoreEntry_overlap (dp : String → Option ℚ) (now : ℚ) (pt : List String)
    (m : UserMemoryRecord) :
    (scoreEntry dp now pt m).overlap = scoreMemoryAgainstPrompt m pt := rfl

theorem keptScored_of_overlap (dp : String → Option ℚ) (now : ℚ)
    (mems : List UserMemoryRecord) (p : String)
    (h : (mems.map (scoreEntry dp now (tokenize p))).any
      (fun it => decide (0 < it.overlap)) = true) :
    keptScored dp now mems p = (mems.map (scoreEntry dp now (tokenize p))).filter
      (fun it => decide (0 < it.overlap)) := by
  simp only [keptScored, h, if_true]

theorem keptScored_of_no_overlap (dp : String → Option ℚ) (now : ℚ)
    (mems : List UserMemoryRecord) (p : String)
    (h : (mems.map (scoreEntry dp now (tokenize p))).any
      (fun it => decide (0 < it.overlap)) = false) :
    keptScored dp now mems p = mems.map (scoreEntry dp now (tokenize p)) := by
  simp only [keptScored, h, if_false]
  exact List.filter_eq_self.mpr (fun a _ => rfl)

theorem keptScored_sublist (dp : String → Option ℚ) (now : ℚ)
    (mems : List UserMemoryRecord) (p : String) :
    List.Sublist (keptScored dp now mems p) (mems.map (scoreEntry dp now (tokenize p))) := by
  simp only [keptScored]
  exact List.filter_sublist _

theorem select_eq_of_guard (dp : String → Option ℚ) (now : ℚ)
    (mems : List UserMemoryRecord) (p : String) (limit : Int)
    (h : ¬ (mems.length = 0 ∨ limit ≤ 0)) :
    selectRelevantMemories dp now mems p limit =
      ((selectSorted dp now mems p).take limit.toNat).map (fun it => it.memory) := by
  rw [selectRelevantMemories, if_neg h]

/-! ### Pattern finding and trimming, for the extraction parser -/

theorem stripPat_fail {p : Char} {ps l : List Char} {c : Char} (h : c ≠ p) :
    stripPat (p :: ps) (c :: l) = none := by
  simp [stripPat, h]

theorem findPat_backticks_of_clean (l₂ : List Char) :
    ∀ (l₁ : List Char), (∀ c ∈ l₁, c ≠ '`') →
      findPatSplit ['`', '`', '`'] (l₁ ++ '`' :: '`' :: '`' :: l₂) = some (l₁, l₂) := by
  intro l₁
  induction l₁ with
  | nil =>
    intro _
    simp [findPatSplit, stripPat]
  | cons c cs ih =>
    intro h
    have hc : c ≠ '`' := h c (List.mem_cons_self _ _)
    rw [List.cons_append, findPatSplit, stripPat_fail hc,
      ih (fun d hd => h d (List.mem_cons_of_mem _ hd))]
    rfl

theorem findPat_backticks_none_of_clean (l : List Char) (h : ∀ c ∈ l, c ≠ '`') :
    findPatSplit ['`', '`', '`'] l = none := by
  induction l with
  | nil => rfl
  | cons c cs ih =>
    rw [findPatSplit, stripPat_fail (h c (List.mem_cons_self _ _)),
      ih (fun d hd => h d (List.mem_cons_of_mem _ hd))]
    rfl

theorem dropWhile_head_false {p : Char → Bool} {c : Char} (l : List Char) (h : p c = false) :
    (c :: l).dropWhile p = c :: l := by
  rw [List.dropWhile_cons, if_neg (by simp [h])]

theorem dropWhile_all_true {p : Char → Bool} (pre : List Char) (rest : List Char)
    (hpre : ∀ c ∈ pre, p c = true) :
    (pre ++ rest).dropWhile p = rest.dropWhile p := by
  induction pre with
  | nil => rfl
  | cons c cs ih =>
    rw [List.cons_append, List.dropWhile_cons, if_pos (hpre c (List.mem_cons_self _ _))]
    exact ih (fun d hd => hpre d (List.mem_cons_of_mem _ hd))

theorem jsTrimList_of_ends (a b : Char) (l : List Char)
    (ha : isJsWs a = false) (hb : isJsWs b = false) :
    jsTrimList (a :: (l ++ [b])) = a :: (l ++ [b]) := by
  rw [jsTrimList, dropWhile_head_false _ ha]
  have h2 : (a :: (l ++ [b])).reverse = b :: (l.reverse ++ [a]) := by simp
  rw [h2, dropWhile_head_false _ hb, ← h2, List.reverse_reverse]

theorem jsTrimList_single (a : Char) (ha : isJsWs a = false) :
    jsTrimList [a] = [a] := by
  rw [jsTrimList, dropWhile_head_false _ ha]
  simp [dropWhile_head_false _ ha]

theorem jsTrimList_trailing (a b w : Char) (l : List Char)
    (ha : isJsWs a = false) (hb : isJsWs b = false) (hw : isJsWs w = true) :
    jsTrimList ((a :: (l ++ [b])) ++ [w]) = a :: (l ++ [b]) := by
  rw [jsTrimList]
  have h1 : ((a :: (l ++ [b])) ++ [w]).dropWhile isJsWs = (a :: (l ++ [b])) ++ [w] := by
    rw [List.cons_append, dropWhile_head_false _ ha]
  rw [h1]
  have h2 : ((a :: (l ++ [b])) ++ [w]).reverse = w :: (b :: (l.reverse ++ [a])) := by simp
  rw [h2, List.dropWhile_cons, if_pos (by simp [hw]), dropWhile_head_false _ hb]
  simp

theorem braceSlice_eq (pre mid suf : List Char)
    (hpre : ∀ c ∈ pre, c ≠ '{') (hsuf : ∀ c ∈ suf, c ≠ '}') :
    braceSlice (pre ++ ('{' :: (mid ++ ['}'])) ++ suf) = some ('{' :: (mid ++ ['}'])) := by
  rw [braceSlice]
  have h1 : (pre ++ ('{' :: (mid ++ ['}'])) ++ suf).dropWhile (fun c => decide (c ≠ '{')) =
      '{' :: (mid ++ ['}'] ++ suf) := by
    rw [List.append_assoc, dropWhile_all_true pre _ (fun c hc => by simp [hpre c hc])]
    rw [List.cons_append, dropWhile_head_false _ (by simp), List.append_assoc]
  rw [h1]
  have h2 : ('{' :: (mid ++ ['}'] ++ suf)).reverse =
      suf.reverse ++ ('}' :: (mid.reverse ++ ['{'])) := by simp
  have h3 : (suf.reverse ++ ('}' :: (mid.reverse ++ ['{']))).dropWhile (fun c => decide (c ≠ '}')) =
      '}' :: (mid.reverse ++ ['{']) := by
    rw [dropWhile_all_true suf.reverse _
      (fun c hc => by simp [hsuf c (List.mem_reverse.mp hc)])]
    rw [dropWhile_head_false _ (by simp)]
  simp only [h2, h3]
  simp

theorem json_clean_full (mid : List Char) (hclean : ∀ c ∈ mid, c ≠ '`') :
    ∀ c ∈ '{' :: (mid ++ ['}']), c ≠ '`' := by
  intro c hc
  rcases List.mem_cons.mp hc with rfl | hc
  · decide
  · rcases List.mem_append.mp hc with hc | hc
    · exact hclean c hc
    · simp only [List.mem_singleton] at hc
      subst hc
      decide

/-- On a backtick-free object text (starting `{`, ending `}`), the parser's
candidate list is the text itself twice: once as the whole trimmed reply and
once as the brace slice (the fence strategy does not fire). -/
theorem jsonCandidateTexts_plain (mid : List Char) (hclean : ∀ c ∈ mid, c ≠ '`') :
    jsonCandidateTexts (String.mk ('{' :: (mid ++ ['}']))) =
      [String.mk ('{' :: (mid ++ ['}'])), String.mk ('{' :: (mid ++ ['}']))] := by
  have htrim : jsTrimList ('{' :: (mid ++ ['}'])) = '{' :: (mid ++ ['}']) :=
    jsTrimList_of_ends '{' '}' mid (by decide) (by decide)
  have hfence := findPat_backticks_none_of_clean _ (json_clean_full mid hclean)
  have hbrace : braceSlice ('{' :: (mid ++ ['}'])) = some ('{' :: (mid ++ ['}'])) := by
    have h := braceSlice_eq [] mid [] (by simp) (by simp)
    simpa using h
  rw [jsonCandidateTexts]
  simp [fencedInner, htrim, hfence, hbrace]

/-- On the same text wrapped in a ```` ```json ```` fence, the candidate list
is the fenced text, then the fenced interior (the text itself, trimmed), then
the brace slice (again the text itself). -/
theorem jsonCandidateTexts_fenced (mid : List Char) (hclean : ∀ c ∈ mid, c ≠ '`') :
    jsonCandidateTexts (fenceJson (String.mk ('{' :: (mid ++ ['}'])))) =
      [fenceJson (String.mk ('{' :: (mid ++ ['}']))),
       String.mk ('{' :: (mid ++ ['}'])), String.mk ('{' :: (mid ++ ['}']))] := by
  have hLlist : (fenceJson (String.mk ('{' :: (mid ++ ['}'])))).toList =
      '`' :: '`' :: '`' :: 'j' :: 's' :: 'o' :: 'n' :: '\n' ::
        (('{' :: (mid ++ ['}'])) ++ ['\n', '`', '`', '`']) := by
    simp [fenceJson]
  have htrimL : jsTrimList ('`' :: '`' :: '`' :: 'j' :: 's' :: 'o' :: 'n' :: '\n' ::
      (('{' :: (mid ++ ['}'])) ++ ['\n', '`', '`', '`'])) =
      '`' :: '`' :: '`' :: 'j' :: 's' :: 'o' :: 'n' :: '\n' ::
        (('{' :: (mid ++ ['}'])) ++ ['\n', '`', '`', '`']) := by
    have h := jsTrimList_of_ends '`' '`'
      ('`' :: '`' :: 'j' :: 's' :: 'o' :: 'n' :: '\n' :: (('{' :: (mid ++ ['}'])) ++ ['\n', '`', '`']))
      (by decide) (by decide)
    simpa using h
  have hopen : findPatSplit ['`', '`', '`'] ('`' :: '`' :: '`' :: 'j' :: 's' :: 'o' :: 'n' :: '\n' ::
      (('{' :: (mid ++ ['}'])) ++ ['\n', '`', '`', '`'])) =
      some ([], 'j' :: 's' :: 'o' :: 'n' :: '\n' :: (('{' :: (mid ++ ['}'])) ++ ['\n', '`', '`', '`'])) := by
    have h := findPat_backticks_of_clean
      ('j' :: 's' :: 'o' :: 'n' :: '\n' :: (('{' :: (mid ++ ['}'])) ++ ['\n', '`', '`', '`']))
      [] (by simp)
    simpa using h
  have hclose : findPatSplit ['`', '`', '`'] (('{' :: (mid ++ ['}'])) ++ ['\n', '`', '`', '`']) =
      some (('{' :: (mid ++ ['}'])) ++ ['\n'], []) := by
    have h := findPat_backticks_of_clean [] (('{' :: (mid ++ ['}'])) ++ ['\n']) ?side
    case side =>
      intro c hc
      rcases List.mem_append.mp hc with hc | hc
      · exact json_clean_full mid hclean c hc
      · simp only [List.mem_singleton] at hc
        subst hc
        decide
    · simpa using h
  have hinner : jsTrimList (('{' :: (mid ++ ['}'])) ++ ['\n']) = '{' :: (mid ++ ['}']) :=
    jsTrimList_trailing '{' '}' '\n' mid (by decide) (by decide) (by decide)
  have hbrace : braceSlice ('`' :: '`' :: '`' :: 'j' :: 's' :: 'o' :: 'n' :: '\n' ::
      (('{' :: (mid ++ ['}'])) ++ ['\n', '`', '`', '`'])) = some ('{' :: (mid ++ ['}'])) := by
    have h := braceSlice_eq ['`', '`', '`', 'j', 's', 'o', 'n', '\n'] mid ['\n', '`', '`', '`']
      (by decide) (by decide)
    simpa using h
  have hfeq : fenceJson (String.mk ('{' :: (mid ++ ['}']))) =
      String.mk ('`' :: '`' :: '`' :: 'j' :: 's' :: 'o' :: 'n' :: '\n' ::
        ('{' :: (mid ++ ['}', '\n', '`', '`', '`']))) := by
    apply String.ext
    simp [fenceJson]
  rw [jsonCandidateTexts, hLlist]
  simp only [htrimL]
  simp only [List.cons_append, List.append_assoc, List.nil_append,
    List.singleton_append] at hopen hclose hbrace hinner
  simp [fencedInner, hopen, stripJsonTag, jsToLower, hclose, hinner, hbrace,
    List.dropWhile_cons, isJsWs, hfeq]

/-! ### The claims -/

/-- C8: for every valid JSON object text (rendered as: a backtick-free text of
the shape `{...}` that `JSON.parse` accepts as a truthy object value, while
rejecting the fenced wrapper itself, as real `JSON.parse` does), parsing the
reply that consists of exactly that text wrapped in a ```` ```json ```` fenced
code block yields the same parse result — and hence the same candidate list —
as parsing the unfenced text. -/
theorem fenced_unfenced_parse_equal (mid : List Char) (jp : String → Option Js) (v : Js)
    (hclean : ∀ c ∈ mid, c ≠ '`')
    (hv : jp (String.mk ('{' :: (mid ++ ['}']))) = some v)
    (hobj : isObjectLike v = true)
    (hfence : jp (fenceJson (String.mk ('{' :: (mid ++ ['}'])))) = none) :
    parseJsonObjectFromText jp (fenceJson (String.mk ('{' :: (mid ++ ['}'])))) =
      parseJsonObjectFromText jp (String.mk ('{' :: (mid ++ ['}']))) ∧
    parseJsonObjectFromText jp (String.mk ('{' :: (mid ++ ['}']))) = some v ∧
    parseAutoMemoryCandidates
        (parseJsonObjectFromText jp (fenceJson (String.mk ('{' :: (mid ++ ['}']))))) =
      parseAutoMemoryCandidates
        (parseJsonObjectFromText jp (String.mk ('{' :: (mid ++ ['}'])))) := by
  have hplain : parseJsonObjectFromText jp (String.mk ('{' :: (mid ++ ['}']))) = some v := by
    rw [parseJsonObjectFromText, jsonCandidateTexts_plain mid hclean]
    simp [List.findSome?_cons, hv, hobj]
  have hfencedEq : parseJsonObjectFromText jp
      (fenceJson (String.mk ('{' :: (mid ++ ['}'])))) = some v := by
    rw [parseJsonObjectFromText, jsonCandidateTexts_fenced mid hclean]
    simp [List.findSome?_cons, hfence, hv, hobj]
  exact ⟨hfencedEq.trans hplain.symm, hplain, by rw [hfencedEq, hplain]⟩

/-- Witness for C8 at the concrete reply `{"save":[]}` and a concrete
`JSON.parse` oracle accepting exactly that text. -/
theorem fenced_unfenced_parse_equal_witness :
    parseJsonObjectFromText jsonParseSample
        (fenceJson (String.mk ('{' :: (("\"save\":[]").toList ++ ['}'])))) =
      parseJsonObjectFromText jsonParseSample
        (String.mk ('{' :: (("\"save\":[]").toList ++ ['}']))) ∧
    parseJsonObjectFromText jsonParseSample
        (String.mk ('{' :: (("\"save\":[]").toList ++ ['}']))) =
      some (Js.obj [("save", Js.arr [])]) ∧
    parseAutoMemoryCandidates (parseJsonObjectFromText jsonParseSample
        (fenceJson (String.mk ('{' :: (("\"save\":[]").toList ++ ['}']))))) =
      parseAutoMemoryCandidates (parseJsonObjectFromText jsonParseSample
        (String.mk ('{' :: (("\"save\":[]").toList ++ ['}'])))) :=
  fenced_unfenced_parse_equal ("\"save\":[]").toList jsonParseSample
    (Js.obj [("save", Js.arr [])]) (by decide) (by rfl) rfl (by rfl)

/-- C7: when none of the three parse strategies yields a truthy JSON object —
no candidate substring is accepted by `JSON.parse` as an object-like value —
extraction parses to `none` and returns the empty candidate list (the
embedding is total, so nothing is thrown), and the merger consequently
persists nothing. -/
theorem unparsable_extraction_yields_nothing (jp : String → Option Js) (text : String)
    (existing : List UserMemoryRecord)
    (h : ∀ c ∈ jsonCandidateTexts text, ∀ v, jp c = some v → isObjectLike v = false) :
    parseJsonObjectFromText jp text = none ∧
    parseAutoMemoryCandidates (parseJsonObjectFromText jp text) = [] ∧
    mergeAutoMemories (parseAutoMemoryCandidates (parseJsonObjectFromText jp text))
      existing = [] := by
  have hnone : parseJsonObjectFromText jp text = none := by
    rw [parseJsonObjectFromText]
    refine List.findSome?_eq_none_iff.mpr ?_
    intro c hc
    cases hjc : jp c with
    | none => rfl
    | some v => simp [h c hc v hjc]
  refine ⟨hnone, ?_, ?_⟩
  · rw [hnone]
    rfl
  · rw [hnone]
    rfl

/-- Witness for C7: a `JSON.parse` that rejects everything (free prose) gives
an empty candidate list and an empty merge. -/
theorem unparsable_extraction_yields_nothing_witness :
    parseJsonObjectFromText (fun _ => none) "the model replied with prose" = none ∧
    parseAutoMemoryCandidates
      (parseJsonObjectFromText (fun _ => none) "the model replied with prose") = [] ∧
    mergeAutoMemories
      (parseAutoMemoryCandidates
        (parseJsonObjectFromText (fun _ => none) "the model replied with prose"))
      [memGamma] = [] :=
  unparsable_extraction_yields_nothing (fun _ => none) "the model replied with prose"
    [memGamma] (by intro c hc v hv; cases hv)

unseal Rat.add Rat.sub Rat.mul Rat.inv Rat.ofScientific in
/-- C3: the merger's hard confidence gate: every persisted candidate has
confidence at least 0.78 (`MIN_AUTO_MEMORY_CONFIDENCE`); a candidate at 0.77
is rejected by `normalizeCandidate` and never persisted, while one at exactly
0.78 passes the gate and is persisted. -/
theorem merger_confidence_gate :
    (∀ (cands : List AutoMemoryCandidate) (existing : List UserMemoryRecord),
       ∀ c ∈ mergeAutoMemories cands existing, MIN_AUTO_MEMORY_CONFIDENCE ≤ c.confidence) ∧
    normalizeCandidate ⟨"prefers tabs", .preference, 0.77⟩ = none ∧
    mergeAutoMemories [⟨"prefers tabs", .preference, 0.77⟩] [] = [] ∧
    normalizeCandidate ⟨"prefers tabs", .preference, 0.78⟩ =
      some ⟨"prefers tabs", .preference, 0.78⟩ ∧
    mergeAutoMemories [⟨"prefers tabs", .preference, 0.78⟩] [] =
      [⟨"prefers tabs", .preference, 0.78⟩] := by
  refine ⟨?_, by decide, by decide, by decide, by decide⟩
  intro cands existing c hc
  exact ((mergeLoop_invariant cands MAX_AUTO_INSERT_PER_TURN _).1 c hc).2.2

unseal Rat.add Rat.sub Rat.mul Rat.inv Rat.ofScientific in
/-- Witness for C3's universally quantified conjunct at a concrete merge. -/
theorem merger_confidence_gate_witness :
    MIN_AUTO_MEMORY_CONFIDENCE ≤
      (AutoMemoryCandidate.mk "prefers tabs" MemoryKind.preference 0.78).confidence :=
  merger_confidence_gate.1 [⟨"prefers tabs", .preference, 0.78⟩] []
    ⟨"prefers tabs", .preference, 0.78⟩ (by decide)

/-- C4: the merge-level dedup invariant: no persisted candidate's normalized
(trimmed, whitespace-collapsed, lowercased) content equals any existing active
memory's normalized content; the normalized contents of candidates persisted
in the same invocation are pairwise distinct; and no persisted candidate has
an empty normalized key. -/
theorem merger_dedup_invariant (cands : List AutoMemoryCandidate)
    (existing : List UserMemoryRecord) :
    (∀ c ∈ mergeAutoMemories cands existing, ∀ m ∈ existing,
       normalizeMemoryText c.content ≠ normalizeMemoryText m.content) ∧
    ((mergeAutoMemories cands existing).map (fun c => normalizeMemoryText c.content)).Nodup ∧
    (∀ c ∈ mergeAutoMemories cands existing, normalizeMemoryText c.content ≠ "") := by
  obtain ⟨h1, h2, _, _⟩ := mergeLoop_invariant cands MAX_AUTO_INSERT_PER_TURN
    (existing.map (fun m => normalizeMemoryText m.content))
  refine ⟨?_, h2, fun c hc => (h1 c hc).2.1⟩
  intro c hc m hm heq
  exact (h1 c hc).1 (heq ▸ List.mem_map_of_mem _ hm)

unseal Rat.add Rat.sub Rat.mul Rat.inv Rat.ofScientific in
/-- Witness for C4 at a concrete merge: "Likes Python" vs "likes   python"
style collisions are excluded. -/
theorem merger_dedup_invariant_witness :
    normalizeMemoryText (AutoMemoryCandidate.mk "Enjoys hiking" MemoryKind.other (9/10)).content ≠
      normalizeMemoryText memGamma.content ∧
    normalizeMemoryText
      (AutoMemoryCandidate.mk "Enjoys hiking" MemoryKind.other (9/10)).content ≠ "" :=
  ⟨(merger_dedup_invariant [⟨"Enjoys  hiking", .other, 9/10⟩] [memGamma]).1
      ⟨"Enjoys hiking", .other, 9/10⟩ (by decide) memGamma (by decide),
   (merger_dedup_invariant [⟨"Enjoys  hiking", .other, 9/10⟩] [memGamma]).2.2
      ⟨"Enjoys hiking", .other, 9/10⟩ (by decide)⟩

unseal Rat.add Rat.sub Rat.mul Rat.inv Rat.ofScientific in
/-- C5: at most 3 entries are created per merge invocation
(`MAX_AUTO_INSERT_PER_TURN`); the persisted list is a sublist of the
normalized candidates in input order (survivors are taken in input order); and
on 6 valid, non-duplicate candidates exactly the first 3 are persisted. -/
theorem merger_insert_cap :
    (∀ (cands : List AutoMemoryCandidate) (existing : List UserMemoryRecord),
       (mergeAutoMemories cands existing).length ≤ 3 ∧
       List.Sublist (mergeAutoMemories cands existing) (cands.filterMap normalizeCandidate)) ∧
    mergeAutoMemories
      [⟨"fact one", .other, 0.9⟩, ⟨"fact two", .other, 0.9⟩, ⟨"fact three", .other, 0.9⟩,
       ⟨"fact four", .other, 0.9⟩, ⟨"fact five", .other, 0.9⟩, ⟨"fact six", .other, 0.9⟩] [] =
      [⟨"fact one", .other, 0.9⟩, ⟨"fact two", .other, 0.9⟩, ⟨"fact three", .other, 0.9⟩] := by
  refine ⟨?_, by decide⟩
  intro cands existing
  obtain ⟨_, _, h3, h4⟩ := mergeLoop_invariant cands MAX_AUTO_INSERT_PER_TURN
    (existing.map (fun m => normalizeMemoryText m.content))
  exact ⟨h3, h4⟩

/-- C10 (implicit): the selector only returns entries of its input list: every
record occurs in the output no more often than in the input, and the output
length is bounded by both the limit and the input length (the input is never
extended; the embedding is pure, so the input list is not modified). -/
theorem select_output_bounds (dp : String → Option ℚ) (now : ℚ)
    (mems : List UserMemoryRecord) (p : String) (limit : Int) :
    (∀ m : UserMemoryRecord,
       (selectRelevantMemories dp now mems p limit).count m ≤ mems.count m) ∧
    (selectRelevantMemories dp now mems p limit).length ≤ limit.toNat ∧
    (selectRelevantMemories dp now mems p limit).length ≤ mems.length := by
  by_cases hguard : mems.length = 0 ∨ limit ≤ 0
  · rw [selectRelevantMemories, if_pos hguard]
    simp
  · rw [select_eq_of_guard dp now mems p limit hguard]
    have hperm := sortScoredDesc_perm (keptScored dp now mems p)
    have hsub := keptScored_sublist dp now mems p
    have hmemeq : ((mems.map (scoreEntry dp now (tokenize p))).map
        (fun it => it.memory)) = mems := by
      rw [List.map_map]
      simp [Function.comp_def, scoreEntry_memory]
    refine ⟨?_, ?_, ?_⟩
    · intro m
      calc (((selectSorted dp now mems p).take limit.toNat).map
            (fun it => it.memory)).count m
          ≤ ((selectSorted dp now mems p).map (fun it => it.memory)).count m :=
            ((List.take_sublist _ _).map _).count_le m
        _ = ((keptScored dp now mems p).map (fun it => it.memory)).count m :=
            (hperm.map _).count_eq m
        _ ≤ ((mems.map (scoreEntry dp now (tokenize p))).map
              (fun it => it.memory)).count m := (hsub.map _).count_le m
        _ = mems.count m := by rw [hmemeq]
    · rw [List.length_map, List.length_take]
      exact Nat.min_le_left _ _
    · rw [List.length_map, List.length_take]
      calc min limit.toNat (selectSorted dp now mems p).length
          ≤ (selectSorted dp now mems p).length := Nat.min_le_right _ _
        _ = (keptScored dp now mems p).length := hperm.length_eq
        _ ≤ (mems.map (scoreEntry dp now (tokenize p))).length := hsub.length_le
        _ = mems.length := List.length_map _ _

/-- C2 counterexample: with a non-empty input, a prompt no entry intersects,
and `limit = 0`, the guard returns the empty list — so the claim's "the result
is non-empty whenever the input list is non-empty" fails as stated. -/
theorem select_limit_zero_counterexample :
    [memGamma] ≠ ([] : List UserMemoryRecord) ∧
    (∀ m ∈ [memGamma], scoreMemoryAgainstPrompt m (tokenize "zzz unrelated prompt") = 0) ∧
    selectRelevantMemories dateParseSample 0 [memGamma] "zzz unrelated prompt" 0 = [] := by
  decide

unseal Rat.add Rat.sub Rat.mul Rat.inv Rat.ofScientific in
/-- C2 (amended): the two-tier filter of the selector.  If some input entry's
token set intersects the prompt's token set, every selected entry has positive
overlap.  If no entry intersects, the selection (for positive `limit`, the
amendment the `limit ≤ 0` guard forces) is the first `limit` entries of the
stable descending sort by the pure recency/confidence/manual score of the
whole input, and it is non-empty whenever the input is. -/
theorem select_two_tier_filter (dp : String → Option ℚ) (now : ℚ)
    (mems : List UserMemoryRecord) (p : String) (limit : Int) :
    ((∃ m ∈ mems, 0 < scoreMemoryAgainstPrompt m (tokenize p)) →
       ∀ m ∈ selectRelevantMemories dp now mems p limit,
         0 < scoreMemoryAgainstPrompt m (tokenize p)) ∧
    ((∀ m ∈ mems, scoreMemoryAgainstPrompt m (tokenize p) = 0) → mems ≠ [] → 1 ≤ limit →
       selectRelevantMemories dp now mems p limit =
         ((sortScoredDesc (mems.map (scoreEntry dp now (tokenize p)))).take limit.toNat).map
           (fun it => it.memory) ∧
       selectRelevantMemories dp now mems p limit ≠ []) := by
  constructor
  · rintro ⟨m0, hm0, hov⟩ m hm
    by_cases hguard : mems.length = 0 ∨ limit ≤ 0
    · rw [selectRelevantMemories, if_pos hguard] at hm
      exact absurd hm (List.not_mem_nil m)
    · rw [select_eq_of_guard dp now mems p limit hguard] at hm
      obtain ⟨it, hit, rfl⟩ := List.mem_map.mp hm
      have hit' : it ∈ selectSorted dp now mems p := List.mem_of_mem_take hit
      have hitk : it ∈ keptScored dp now mems p :=
        (sortScoredDesc_perm _).mem_iff.mp hit'
      have hany : (mems.map (scoreEntry dp now (tokenize p))).any
          (fun it => decide (0 < it.overlap)) = true := by
        refine List.any_eq_true.mpr
          ⟨scoreEntry dp now (tokenize p) m0, List.mem_map_of_mem _ hm0, ?_⟩
        simpa [scoreEntry_overlap] using hov
      rw [keptScored_of_overlap dp now mems p hany] at hitk
      have h2 := List.mem_filter.mp hitk
      obtain ⟨m1, hm1, rfl⟩ := List.mem_map.mp h2.1
      have h3 : 0 < (scoreEntry dp now (tokenize p) m1).overlap := by
        simpa using h2.2
      simpa [scoreEntry_overlap, scoreEntry_memory] using h3
  · intro hzero hne hlim
    have hguard : ¬ (mems.length = 0 ∨ limit ≤ 0) := by
      push_neg
      refine ⟨fun h => hne (List.length_eq_zero.mp h), by omega⟩
    have hanyf : (mems.map (scoreEntry dp now (tokenize p))).any
        (fun it => decide (0 < it.overlap)) = false := by
      rw [List.any_eq_false]
      intro it hit
      obtain ⟨m1, hm1, rfl⟩ := List.mem_map.mp hit
      simp [scoreEntry_overlap, hzero m1 hm1]
    have hkept := keptScored_of_no_overlap dp now mems p hanyf
    have heq : selectRelevantMemories dp now mems p limit =
        ((sortScoredDesc (mems.map (scoreEntry dp now (tokenize p)))).take limit.toNat).map
          (fun it => it.memory) := by
      rw [select_eq_of_guard dp now mems p limit hguard]
      unfold selectSorted
      rw [hkept]
    refine ⟨heq, ?_⟩
    rw [heq]
    intro hempty
    have hlen := congrArg List.length hempty
    rw [List.length_map, List.length_take, (sortScoredDesc_perm _).length_eq,
      List.length_map] at hlen
    have h1 : 1 ≤ limit.toNat := by omega
    rcases Nat.min_eq_zero_iff.mp hlen with h | h
    · omega
    · exact hne (List.length_eq_zero.mp h)

/-- Witness for C2: a prompt that meets `memGamma`'s tokens selects it with
positive overlap; a disjoint prompt falls back to the full ranked list, which
is non-empty. -/
theorem select_two_tier_filter_witness :
    0 < scoreMemoryAgainstPrompt memGamma (tokenize "tell me about python") ∧
    (selectRelevantMemories (fun _ => none) 0 [memGamma] "zzz unrelated" 8 =
       ((sortScoredDesc ([memGamma].map
           (scoreEntry (fun _ => none) 0 (tokenize "zzz unrelated")))).take
         (8 : Int).toNat).map (fun it => it.memory) ∧
     selectRelevantMemories (fun _ => none) 0 [memGamma] "zzz unrelated" 8 ≠ []) :=
  ⟨(select_two_tier_filter (fun _ => none) 0 [memGamma] "tell me about python" 8).1
      ⟨memGamma, by decide, by decide⟩ memGamma (by decide),
   (select_two_tier_filter (fun _ => none) 0 [memGamma] "zzz unrelated" 8).2
      (by decide) (by decide) (by decide)⟩

unseal Rat.add Rat.sub Rat.mul Rat.inv Rat.ofScientific in
/-- C9 counterexample: `selectRelevantMemories` reads `Date.now()` internally,
so two invocations with identical memory list, prompt and limit — 40 days of
wall clock apart — return different results (the recency bonus of `memAlpha`
decays from 1.5 to 0, flipping the order against the clock-independent
`memBeta`).  `select` is therefore not a pure function of (memories, prompt,
limit) as the claim states. -/
theorem select_clock_dependence_counterexample :
    selectRelevantMemories dateParseSample 0 [memAlpha, memBeta] "" 8 ≠
      selectRelevantMemories dateParseSample 3456000000 [memAlpha, memBeta] "" 8 := by
  decide

unseal Rat.add Rat.sub Rat.mul Rat.inv Rat.ofScientific in
/-- C9 (amended): with the ambient clock reading (`Date.now()`) and date
semantics (`Date.parse`) made explicit inputs, the selector is deterministic —
it is a pure function, so two invocations on identical inputs return the same
list — and order-stable: the sorted intermediate is descending in score, and
entries of any equal score appear in it exactly in their input order (the
filter by each score class is preserved); the returned list is a prefix of
that stable order. -/
theorem select_deterministic_stable (dp : String → Option ℚ) (now : ℚ)
    (mems : List UserMemoryRecord) (p : String) (limit : Int) :
    selectRelevantMemories dp now mems p limit =
      selectRelevantMemories dp now mems p limit ∧
    (selectSorted dp now mems p).Pairwise (fun a b => b.score ≤ a.score) ∧
    (∀ s : ℚ, (selectSorted dp now mems p).filter (fun it => decide (it.score = s)) =
       (keptScored dp now mems p).filter (fun it => decide (it.score = s))) ∧
    (¬ (mems.length = 0 ∨ limit ≤ 0) →
       selectRelevantMemories dp now mems p limit =
         ((selectSorted dp now mems p).take limit.toNat).map (fun it => it.memory)) :=
  ⟨rfl, sortScoredDesc_pairwise _, fun s => filter_sortScoredDesc _ s,
   fun h => select_eq_of_guard dp now mems p limit h⟩

/-- Witness for C9's guarded conjunct at a concrete selection. -/
theorem select_deterministic_stable_witness :
    selectRelevantMemories dateParseSample 0 [memAlpha, memBeta] "" 8 =
      ((selectSorted dateParseSample 0 [memAlpha, memBeta] "").take (8 : Int).toNat).map
        (fun it => it.memory) :=
  (select_deterministic_stable dateParseSample 0 [memAlpha, memBeta] "" 8).2.2.2 (by decide)

/-- C1: whenever the Quota Gate returns `allowed = false` (on a turn that
reaches it: bearer token present, session valid, body parses, message
non-empty), the handler returns the 429 denial response carrying the quota
payload, and performs no mutation at all: no thread created, no message
appended, no completion requested, no background work dispatched
(`effects = noEffects`). -/
theorem quota_denied_leaves_no_trace (tok userId : String) (body : ChatRequestBody)
    (isAdmin : Bool) (q : QuotaResult) (tl : Option String) (ct : String)
    (hist : List StoredMessage) (sr : Except String UserSettingsRecord)
    (mr : Except String (List UserMemoryRecord))
    (comp : Except String (String × String)) (nowIso : String) (now : ℚ)
    (dp : String → Option ℚ)
    (hmsg : jsTrim (body.message.getD "") ≠ "")
    (hq : q.allowed = false) :
    (let out := runTurn ⟨some tok, .ok (some userId), some body, isAdmin, .ok q, tl, ct,
        hist, sr, mr, comp, nowIso, now, dp⟩
     out.status = 429 ∧
     out.errorMsg = some "You're cut off! Go outside. Touch some grass." ∧
     out.quotaOut = some q ∧
     out.effects = noEffects) := by
  have key : runTurn ⟨some tok, .ok (some userId), some body, isAdmin, .ok q, tl, ct,
      hist, sr, mr, comp, nowIso, now, dp⟩ =
      { errOut 429 "You're cut off! Go outside. Touch some grass." with
        quotaOut := some q } := by
    simp only [runTurn]
    rw [if_neg hmsg, if_pos hq]
  dsimp only
  rw [key]
  exact ⟨rfl, rfl, rfl, rfl⟩

/-- Witness for C1 at a fully concrete environment. -/
theorem quota_denied_leaves_no_trace_witness :
    (let out := runTurn ⟨some "tok", .ok (some "user-1"), some bodyHello, false,
        .ok quotaDenied, none, "t1", [], .error "down", .error "down", .ok ("r", "p"),
        "2026-01-01T00:00:00.000Z", 0, fun _ => none⟩
     out.status = 429 ∧
     out.errorMsg = some "You're cut off! Go outside. Touch some grass." ∧
     out.quotaOut = some quotaDenied ∧
     out.effects = noEffects) :=
  quota_denied_leaves_no_trace "tok" "user-1" bodyHello false quotaDenied none "t1" []
    (.error "down") (.error "down") (.ok ("r", "p")) "2026-01-01T00:00:00.000Z" 0
    (fun _ => none) (by decide) rfl

/-- C6 counterexample: the schema-missing condition signalled by the memories
read (after a successful settings fetch) leaves the fetched, non-default
settings in effect, so "settings equal to the defaults" fails as claimed —
while the turn still proceeds. -/
theorem schema_missing_settings_counterexample :
    isMemorySchemaMissingError "relation \"chat_user_memories\" does not exist" = true ∧
    (runTurn envMemoriesSchemaMissing).status = 200 ∧
    (runTurn envMemoriesSchemaMissing).settingsUsed = some fetchedSettings ∧
    fetchedSettings.personalizationGuidance ≠ "" ∧
    (runTurn envMemoriesSchemaMissing).settingsUsed ≠
      some (defaultUserSettings "user-1" envMemoriesSchemaMissing.nowIso) := by
  decide

/-- C6 (amended): a schema-missing failure during the settings/memory read
degrades the turn instead of failing it: in both failure positions the turn
completes with status 200, the selected-memory list is empty and the
auto-memory extraction step is skipped.  Settings equal the defaults
`{personalizationGuidance := "", memoryEnabled := true, autoMemoryEnabled :=
true}` exactly when the settings fetch itself threw; when the settings fetch
succeeded and the memories read threw the schema-missing error, the
already-fetched settings are kept. -/
theorem schema_missing_soft_degradation (tok userId : String) (body : ChatRequestBody)
    (isAdmin : Bool) (q : QuotaResult) (tl : Option String) (ct : String)
    (hist : List StoredMessage) (e : String) (fetched : UserSettingsRecord)
    (mr : Except String (List UserMemoryRecord)) (reply prov : String)
    (nowIso : String) (now : ℚ) (dp : String → Option ℚ)
    (hmsg : jsTrim (body.message.getD "") ≠ "")
    (hq : q.allowed = true)
    (hschema : isMemorySchemaMissingError e = true)
    (hmem : fetched.memoryEnabled = true) :
    (let outA := runTurn ⟨some tok, .ok (some userId), some body, isAdmin, .ok q, tl, ct,
        hist, .error e, mr, .ok (reply, prov), nowIso, now, dp⟩
     outA.status = 200 ∧
     outA.settingsUsed = some (defaultUserSettings userId nowIso) ∧
     outA.selectedMemories = [] ∧
     outA.effects.extractionDispatched = false) ∧
    (let outB := runTurn ⟨some tok, .ok (some userId), some body, isAdmin, .ok q, tl, ct,
        hist, .ok fetched, .error e, .ok (reply, prov), nowIso, now, dp⟩
     outB.status = 200 ∧
     outB.settingsUsed = some fetched ∧
     outB.selectedMemories = [] ∧
     outB.effects.extractionDispatched = false) := by
  constructor
  · dsimp only
    simp only [runTurn]
    rw [if_neg hmsg, if_neg (by simp [hq])]
    simp [defaultUserSettings]
  · dsimp only
    simp only [runTurn]
    rw [if_neg hmsg, if_neg (by simp [hq])]
    simp [hmem, hschema]

/-- Witness for C6 at a fully concrete environment (both failure positions,
with the schema-missing message of the settings table). -/
theorem schema_missing_soft_degradation_witness :
    (let outA := runTurn ⟨some "tok", .ok (some "user-1"), some bodyHello, false,
        .ok quotaOk, none, "t1", [],
        .error "relation \"chat_user_settings\" does not exist", .error "x",
        .ok ("fine", "koboldcpp"), "2026-01-01T00:00:00.000Z", 0, fun _ => none⟩
     outA.status = 200 ∧
     outA.settingsUsed = some (defaultUserSettings "user-1" "2026-01-01T00:00:00.000Z") ∧
     outA.selectedMemories = [] ∧
     outA.effects.extractionDispatched = false) ∧
    (let outB := runTurn ⟨some "tok", .ok (some "user-1"), some bodyHello, false,
        .ok quotaOk, none, "t1", [], .ok fetchedSettings,
        .error "relation \"chat_user_settings\" does not exist",
        .ok ("fine", "koboldcpp"), "2026-01-01T00:00:00.000Z", 0, fun _ => none⟩
     outB.status = 200 ∧
     outB.settingsUsed = some fetchedSettings ∧
     outB.selectedMemories = [] ∧
     outB.effects.extractionDispatched = false) :=
  schema_missing_soft_degradation "tok" "user-1" bodyHello false quotaOk none "t1" []
    "relation \"chat_user_settings\" does not exist" fetchedSettings (.error "x")
    "fine" "koboldcpp" "2026-01-01T00:00:00.000Z" 0 (fun _ => none)
    (by decide) rfl (by decide) rfl

end RavenUI
